import Mathlib

/-!
Verification development for `para/map.py`, a multiprocessing work-pool
implementation of `map`.  The Python module distributes a finite list of
items over a pool of worker processes (`Mapper`), each of which repeatedly
claims an item from a shared work queue, runs a user routine `process`
on it, and pushes every yielded value onto a shared output queue as a
`(None, value)` record, or a single `(exception, None)` record on failure.
The orchestrating generator `map` polls the output queue and yields values
(or re-raises errors) to the caller; a `QueueLogger` thread consolidates
log records.

The embedding below is shallow:

* The user routine is modelled as `process : α → List β × Option ε`:
  the list of values that `process(item)` yields before either finishing
  normally (`none`) or raising an exception `e` (`some e`).  This captures
  that a Python generator may raise part-way through iteration, after some
  values were already produced.
* Queues are lists consumed at the head and extended at the tail (FIFO,
  as `multiprocessing.Queue`).
* Output records are literal `(error, value)` pairs,
  `Option ε × Option β`, exactly as the Python code pushes
  `(None, value)` and `(e, None)` tuples.
* The entire run of a single worker (`Mapper.run`) is a pure function from the
  list of items it will claim; the concurrent composition of several
  workers with the orchestrator is a small-step transition relation
  `Step` over a system state `Sys`.
* Wall-clock durations (`time.time()` differences) and the textual form
  of items/exceptions are not computable in the embedding, so `Mapper.run`
  is parametrised by `dur : α → δ` (the duration recorded for an item),
  `strA : α → String` (Python `str` on items), `strD : δ → String`
  (Python `str` on durations) and `fmt : ε → String`
  (`traceback.format_exc`).
-/

namespace Para

/-- Python `logging.DEBUG`. -/
def DEBUG : Nat := 10

/-- Python `logging.INFO`. -/
def INFO : Nat := 20

/-- Python `logging.WARNING`. -/
def WARNING : Nat := 30

/-- Python `logging.ERROR`. -/
def ERROR : Nat := 40

/-- Line 57 of `map.py`:
`mappers = min(max(1, mappers or cpu_count()), len(items))`.
`mappers` is the optional requested pool size; the `or` of Python replaces both
`None` and the falsy value `0` by `cpu_count()`. -/
def effectiveMappers (mappers : Option Nat) (cpuCount : Nat) (itemCount : Nat) : Nat :=
  min (max 1 (match mappers with
              | none => cpuCount
              | some m => if m = 0 then cpuCount else m)) itemCount

/-- Modelled from the words of the spec (P2): `clamp(requested, 1, item_count)`,
i.e. `min (max lo r) hi`.  Used only to compare the formula of the spec with
`effectiveMappers` from the code. -/
def specClamp (r lo hi : Nat) : Nat := min (max lo r) hi

/-- Terminal state of a worker: `drained` models `Mapper.run` returning
through the `except Empty` branch (queue exhausted), `failed` models the
`return` inside the `except Exception` branch. -/
inductive MapperEnd where
  | drained
  | failed
deriving DecidableEq, Repr

/-- Everything observable about the complete run of one worker: the records it
pushed onto the output queue (in order), the records it pushed onto the log
queue (in order), its final `self.stats` list, and how it terminated. -/
structure MapperResult (α β ε δ : Type) where
  out : List (Option ε × Option β)
  logs : List (Nat × String)
  stats : List (α × Nat × δ)
  ended : MapperEnd
deriving DecidableEq, Repr

/-- `Mapper.format_stats` (lines 138-141):
`"{0}: - Extracted {1} values from {2} in {3} seconds".format(self.name, outputs, path, duration)`
for each `(path, outputs, duration)` entry of `self.stats`. -/
def Mapper.format_stats {α δ : Type} (name : String) (strA : α → String) (strD : δ → String)
    (stats : List (α × Nat × δ)) : List String :=
  stats.map fun s =>
    name ++ ": - Extracted " ++ toString s.2.1 ++ " values from " ++ strA s.1
      ++ " in " ++ strD s.2.2 ++ " seconds"

/-- `Mapper.run` (lines 106-136) for a single worker, as a function of the
list of items the worker claims from the queue (for a pool of size one this
is the whole queue) and the accumulated `self.stats`.  Per claimed item the
worker logs `"{name}: Processing {str(item)[:50]}"` at INFO, then iterates
`process(item)`, pushing `(None, value)` onto the output queue for each
yielded value.  On normal exhaustion it appends `(item, count, duration)`
to its stats and loops; on an exception `e` it logs two ERROR records,
pushes the single record `(e, None)` and returns at once.  When the queue
is empty it logs `"{name}: No more items to process"` and the newline-joined
`format_stats` block, both at INFO, and terminates drained. -/
def Mapper.run {α β ε δ : Type} (process : α → List β × Option ε) (strA : α → String)
    (strD : δ → String) (fmt : ε → String) (dur : α → δ) (name : String) :
    List α → List (α × Nat × δ) → MapperResult α β ε δ
  | [], stats =>
    ⟨[],
     [(INFO, name ++ ": No more items to process"),
      (INFO, "\n" ++ String.intercalate "\n" (Mapper.format_stats name strA strD stats))],
     stats, MapperEnd.drained⟩
  | item :: rest, stats =>
    match process item with
    | (vals, none) =>
      let r := Mapper.run process strA strD fmt dur name rest
                 (stats ++ [(item, vals.length, dur item)])
      ⟨(vals.map fun v => ((none : Option ε), some v)) ++ r.out,
       (INFO, name ++ ": Processing " ++ (strA item).take 50) :: r.logs,
       r.stats, r.ended⟩
    | (vals, some e) =>
      ⟨(vals.map fun v => ((none : Option ε), some v)) ++ [(some e, none)],
       [(INFO, name ++ ": Processing " ++ (strA item).take 50),
        (ERROR, name ++ ": An error occured while processing " ++ (strA item).take 50),
        (ERROR, name ++ ": " ++ fmt e)],
       stats, MapperEnd.failed⟩

/-- The consumption loop of the orchestrator (lines 75-89) as a function of the
sequence of records it receives from the output queue:
`error, value = output.get(...)`; if `error is None` the value of the record is
yielded, otherwise the error is raised, which terminates the generator, so
nothing after the first error record is yielded or raised. -/
def consume {β ε : Type} : List (Option ε × Option β) → List (Option β) × Option ε
  | [] => ([], none)
  | (none, v) :: rest => (v :: (consume rest).1, (consume rest).2)
  | (some e, _) :: rest => ([], some e)

/-- The sinks that `QueueLogger` could conceivably write to: the
module-level `logger` (`logging.getLogger(__name__)`) that `QueueLogger.run`
actually calls `logger.log(level, message)` on, and the logger object that
was passed to the constructor. -/
structure LogSinks where
  moduleSink : List (Nat × String)
  suppliedSink : List (Nat × String)
deriving DecidableEq, Repr

/-- The state of a `QueueLogger` right after `__init__(self, logger=None)`
(lines 146-148): only `self.queue = Queue()` is set; the `logger` argument
is read but never stored. -/
structure QueueLogger where
  queue : List (Nat × String)
deriving DecidableEq, Repr

/-- `QueueLogger.__init__` with its (unused) `logger` argument. -/
def QueueLogger.init {σ : Type} (lg : Option σ) : QueueLogger :=
  let _ := lg
  ⟨[]⟩

/-- `QueueLogger.debug`: `self.queue.put((logging.DEBUG, message))`. -/
def QueueLogger.debug (q : QueueLogger) (message : String) : QueueLogger :=
  ⟨q.queue ++ [(DEBUG, message)]⟩

/-- `QueueLogger.info`: `self.queue.put((logging.INFO, message))`. -/
def QueueLogger.info (q : QueueLogger) (message : String) : QueueLogger :=
  ⟨q.queue ++ [(INFO, message)]⟩

/-- `QueueLogger.warning`: `self.queue.put((logging.WARNING, message))`. -/
def QueueLogger.warning (q : QueueLogger) (message : String) : QueueLogger :=
  ⟨q.queue ++ [(WARNING, message)]⟩

/-- `QueueLogger.error`: `self.queue.put((logging.ERROR, message))`. -/
def QueueLogger.error (q : QueueLogger) (message : String) : QueueLogger :=
  ⟨q.queue ++ [(ERROR, message)]⟩

/-- One iteration of the `while True` body of `QueueLogger.run`
(lines 162-168), given what `self.queue.get(timeout=...)` produced:
`some (level, message)` for a received record, `none` for the `Empty`
timeout.  Returns the updated sinks and whether the loop continues
(it always does: a record is forwarded via `logger.log(level, message)`
and the timeout branch is `continue`). -/
def QueueLogger.runStep (r : Option (Nat × String)) (s : LogSinks) : LogSinks × Bool :=
  match r with
  | some rec => ({ s with moduleSink := s.moduleSink ++ [rec] }, true)
  | none => (s, true)

/-- The phase a worker process is in, as observable from outside:
`ready` — about to call `item_queue.get`;
`emitting p e` — mid-item, still has the values `p` to push onto the output
queue, after which it finishes the item normally (`e = none`) or pushes the
error record for `e` and returns (`e = some _`);
`drained` — returned through the `except Empty` branch;
`failed` — returned through the `except Exception` branch.
A worker is alive (`Process.is_alive()`) in the first two phases. -/
inductive WState (α β ε : Type) where
  | ready
  | emitting (pending : List β) (err : Option ε)
  | drained
  | failed
deriving DecidableEq

/-- Values a worker still has to push for its current item. -/
def WState.pending {α β ε : Type} : WState α β ε → List β
  | .emitting p _ => p
  | _ => []

/-- Whether the worker process has returned from `run`. -/
def WState.terminal {α β ε : Type} : WState α β ε → Bool
  | .drained => true
  | .failed => true
  | _ => false

/-- `Process.is_alive()` for a worker. -/
def WState.isAlive {α β ε : Type} (w : WState α β ε) : Bool :=
  !w.terminal

/-- The shared state of one `map` invocation: the work queue (`item_queue`),
the pool of workers (`mapper_processes`), the output queue (`output`), the
values the orchestrating generator has yielded so far, and the error it has
re-raised, if any.  Queues are FIFO: elements are appended at the tail and
removed at the head. -/
structure Sys (α β ε : Type) where
  queue : List α
  workers : List (WState α β ε)
  channel : List (Option ε × Option β)
  yielded : List (Option β)
  raised : Option ε
deriving DecidableEq

/-- Interleaved execution of the workers and of the consumption loop of
the orchestrator, one observable action at a time.  Any worker (`w₁ ++ _ :: w₂` selects
one) may claim the item at the head of the work queue, push its next value,
finish an item, push its error record, or observe the empty queue and
terminate; the orchestrator may consume the record at the head of the
output queue, yielding its value or raising its error.  After an error has
been raised the generator is finished, so no further consumption step
exists (`raised = none` is required), while workers keep running. -/
inductive Step {α β ε : Type} (process : α → List β × Option ε) :
    Sys α β ε → Sys α β ε → Prop where
  | claim (a : α) (q : List α) (w₁ w₂ : List (WState α β ε))
      (c : List (Option ε × Option β)) (y : List (Option β)) (r : Option ε) :
      Step process ⟨a :: q, w₁ ++ WState.ready :: w₂, c, y, r⟩
        ⟨q, w₁ ++ WState.emitting (process a).1 (process a).2 :: w₂, c, y, r⟩
  | emit (v : β) (p : List β) (e : Option ε) (q : List α)
      (w₁ w₂ : List (WState α β ε)) (c : List (Option ε × Option β))
      (y : List (Option β)) (r : Option ε) :
      Step process ⟨q, w₁ ++ WState.emitting (v :: p) e :: w₂, c, y, r⟩
        ⟨q, w₁ ++ WState.emitting p e :: w₂, c ++ [(none, some v)], y, r⟩
  | finishOk (q : List α) (w₁ w₂ : List (WState α β ε))
      (c : List (Option ε × Option β)) (y : List (Option β)) (r : Option ε) :
      Step process ⟨q, w₁ ++ WState.emitting [] none :: w₂, c, y, r⟩
        ⟨q, w₁ ++ WState.ready :: w₂, c, y, r⟩
  | finishErr (e : ε) (q : List α) (w₁ w₂ : List (WState α β ε))
      (c : List (Option ε × Option β)) (y : List (Option β)) (r : Option ε) :
      Step process ⟨q, w₁ ++ WState.emitting [] (some e) :: w₂, c, y, r⟩
        ⟨q, w₁ ++ WState.failed :: w₂, c ++ [(some e, none)], y, r⟩
  | drain (w₁ w₂ : List (WState α β ε)) (c : List (Option ε × Option β))
      (y : List (Option β)) (r : Option ε) :
      Step process ⟨[], w₁ ++ WState.ready :: w₂, c, y, r⟩
        ⟨[], w₁ ++ WState.drained :: w₂, c, y, r⟩
  | consumeOk (v : Option β) (q : List α) (w : List (WState α β ε))
      (c : List (Option ε × Option β)) (y : List (Option β)) :
      Step process ⟨q, w, (none, v) :: c, y, none⟩ ⟨q, w, c, y ++ [v], none⟩
  | consumeErr (e : ε) (v : Option β) (q : List α) (w : List (WState α β ε))
      (c : List (Option ε × Option β)) (y : List (Option β)) :
      Step process ⟨q, w, (some e, v) :: c, y, none⟩ ⟨q, w, c, y, some e⟩

/-- Line 75 of `map.py`, the guard of the consumption loop:
`while sum(m.is_alive() for m in mappers) > 0 or not output.empty():`. -/
def loopGuard {α β ε : Type} (s : Sys α β ε) : Bool :=
  decide (0 < (s.workers.map fun m => if m.isAlive then 1 else 0).sum) || !s.channel.isEmpty

/-- The returned lazy sequence is exhausted: every worker has terminated
and the output queue is empty (the negation of `loopGuard`). -/
def exhausted {α β ε : Type} (s : Sys α β ε) : Prop :=
  (∀ w ∈ s.workers, w.terminal = true) ∧ s.channel = []

/-- The state of the system right after `map` set everything up
(lines 51-72): all items in the work queue, `effectiveMappers` freshly
started workers, output queue empty, nothing yielded, nothing raised. -/
def initSys {α β ε : Type} (items : List α) (pool : Option Nat) (cpu : Nat) : Sys α β ε :=
  ⟨items, List.replicate (effectiveMappers pool cpu items.length) WState.ready, [], [], none⟩

/-- All values of the system, wherever they currently sit: already yielded,
buffered in the output queue, pending inside a worker, or still latent in
the unclaimed part of the work queue.  This multiset is invariant under
`Step` when `process` never fails. -/
def sysVals {α β ε : Type} (process : α → List β × Option ε) (s : Sys α β ε) : Multiset β :=
  (↑(s.yielded.filterMap id) : Multiset β) + ↑(s.channel.filterMap Prod.snd)
    + ↑(s.workers.flatMap WState.pending) + ↑(s.queue.flatMap fun a => (process a).1)

/-- Invariant carried through every execution of a `map` invocation whose
`process` never raises: the value multiset is conserved, the output queue
only holds `(None, value)` records, only values are yielded, no worker is
failing or failed, a drained worker certifies the work queue is empty, and
the pool is non-empty. -/
def Inv {α β ε : Type} (process : α → List β × Option ε) (items : List α)
    (s : Sys α β ε) : Prop :=
  sysVals process s = ↑(items.flatMap fun a => (process a).1)
    ∧ (∀ r ∈ s.channel, r.1 = none ∧ r.2.isSome = true)
    ∧ (∀ o ∈ s.yielded, o.isSome = true)
    ∧ (∀ w ∈ s.workers, (∀ p e, w = WState.emitting p e → e = none) ∧ w ≠ WState.failed)
    ∧ ((∃ w ∈ s.workers, w = WState.drained) → s.queue = [])
    ∧ s.workers ≠ []

/-- Progress potential of a single worker, for the termination measure. -/
def wMeasure {α β ε : Type} : WState α β ε → Nat
  | .ready => 1
  | .emitting p e => 2 + 2 * p.length + (if e.isSome then 2 else 0)
  | .drained => 0
  | .failed => 0

/-- Termination measure of the whole system: strictly decreases along every
`Step`, for every `process`, so no execution of the model runs forever. -/
def sysMeasure {α β ε : Type} (process : α → List β × Option ε) (s : Sys α β ε) : Nat :=
  (s.queue.map fun a =>
      3 + 2 * (process a).1.length + (if (process a).2.isSome then 2 else 0)).sum
    + (s.workers.map wMeasure).sum + s.channel.length

/-- States reachable when `process` yields nothing and never fails: the
output queue stays empty, nothing is ever yielded, and every worker is
ready, between an (empty) emission phase, or drained. -/
def nullSys {α β ε : Type} (s : Sys α β ε) : Prop :=
  s.channel = [] ∧ s.yielded = [] ∧ s.raised = none ∧
    ∀ w ∈ s.workers, w = WState.ready ∨ w = WState.emitting [] none ∨ w = WState.drained

/-- C2: the consumption loop yields the values of the error-free records it
receives before the first error record, then re-raises that first error at
once, aborting the lazy sequence; everything after the first error record —
including any further error records from other workers — is neither yielded
nor re-raised, so at most one failure reaches the caller. -/
theorem first_error_propagation {β ε : Type} (pre rest : List (Option ε × Option β))
    (e : ε) (v : Option β) (h : ∀ r ∈ pre, r.1 = none) :
    consume (pre ++ (some e, v) :: rest) = (pre.map Prod.snd, some e) := by
  induction pre with
  | nil => simp [consume]
  | cons hd tl ih =>
    obtain ⟨e1, v1⟩ := hd
    have he : e1 = none := h (e1, v1) (by simp)
    subst he
    have ih' := ih fun r hr => h r (by simp [hr])
    simp [consume, ih']

/-- Witness for `first_error_propagation`: a value record, a first error
record and a second error record; the value is yielded, the first error is
raised, the second error never surfaces. -/
theorem first_error_propagation_witness :
    (∀ r ∈ [((none : Option Nat), some (1 : Nat))], r.1 = none) ∧
      consume ([((none : Option Nat), some (1 : Nat))]
          ++ ((some 5, none) : Option Nat × Option Nat) :: [(some 7, none)])
        = ([some 1], some 5) :=
  ⟨by decide, first_error_propagation _ _ _ _ (by decide)⟩

/-- C3: if `process(item)` raises `e` after yielding `vals`, the whole run
of the worker pushes exactly the records for `vals` followed by the single
error record `(e, None)`, logs the truncated item preview and the formatted
trace at ERROR severity, keeps its previously accumulated stats unflushed,
and terminates failed, with the remaining items `rest` left untouched (the
result does not depend on `rest`); in particular exactly one record in its
output carries an error. -/
theorem worker_fail_fast {α β ε δ : Type} (process : α → List β × Option ε)
    (strA : α → String) (strD : δ → String) (fmt : ε → String) (dur : α → δ)
    (name : String) (item : α) (rest : List α) (stats : List (α × Nat × δ))
    (vals : List β) (e : ε) (h : process item = (vals, some e)) :
    Mapper.run process strA strD fmt dur name (item :: rest) stats =
      ⟨(vals.map fun v => ((none : Option ε), some v)) ++ [(some e, none)],
       [(INFO, name ++ ": Processing " ++ (strA item).take 50),
        (ERROR, name ++ ": An error occured while processing " ++ (strA item).take 50),
        (ERROR, name ++ ": " ++ fmt e)],
       stats, MapperEnd.failed⟩
    ∧ ((Mapper.run process strA strD fmt dur name (item :: rest) stats).out.countP
        fun r => r.1.isSome) = 1 := by
  have h1 : Mapper.run process strA strD fmt dur name (item :: rest) stats =
      ⟨(vals.map fun v => ((none : Option ε), some v)) ++ [(some e, none)],
       [(INFO, name ++ ": Processing " ++ (strA item).take 50),
        (ERROR, name ++ ": An error occured while processing " ++ (strA item).take 50),
        (ERROR, name ++ ": " ++ fmt e)],
       stats, MapperEnd.failed⟩ := by
    simp [Mapper.run, h]
  refine ⟨h1, ?_⟩
  rw [h1]
  simp [List.countP_append, List.countP_cons, List.countP_map, Function.comp]

/-- Witness for `worker_fail_fast`: one item whose processing yields `4`
and then raises `9`; one further item `3` is never claimed. -/
theorem worker_fail_fast_witness :
    ((fun x : Nat => (([x + 2] : List Nat), some (x + 7))) 2 = ([4], some 9)) ∧
      (Mapper.run (fun x : Nat => (([x + 2] : List Nat), some (x + 7)))
          (fun x => toString x) (fun x : Nat => toString x) (fun x => toString x)
          (fun _ => 0) "Mapper 0" [2, 3] [] =
        ⟨[(none, some 4), (some 9, none)],
         [(INFO, "Mapper 0" ++ ": Processing " ++ (toString 2).take 50),
          (ERROR, "Mapper 0" ++ ": An error occured while processing " ++ (toString 2).take 50),
          (ERROR, "Mapper 0" ++ ": " ++ toString 9)],
         [], MapperEnd.failed⟩
      ∧ ((Mapper.run (fun x : Nat => (([x + 2] : List Nat), some (x + 7)))
          (fun x => toString x) (fun x : Nat => toString x) (fun x => toString x)
          (fun _ => 0) "Mapper 0" [2, 3] []).out.countP fun r => r.1.isSome) = 1) :=
  ⟨rfl, worker_fail_fast _ _ _ _ _ _ 2 [3] [] [4] 9 rfl⟩

/-- C4 counterexample: the claim asserts
`effective_pool_size = clamp(requested, 1, item_count)` for every requested
size ≥ 0, but with requested size 0, 2 CPUs and 2 items the code computes
`min(max(1, 0 or cpu_count()), 2) = 2` (the `or` of Python treats `0` as unset),
while `clamp(0, 1, 2) = 1`. -/
theorem pool_sizing_claim_false :
    effectiveMappers (some 0) 2 2 ≠ specClamp 0 1 2 := by decide

/-- C4 amended: for every requested pool size ≥ 1 the effective number of
workers is `clamp(requested, 1, item_count)`; a requested size of 0 is
treated exactly like an absent one — the CPU count is used in place of the
request before clamping; and the effective size never exceeds the item
count. -/
theorem pool_sizing_amended :
    (∀ r c n, 1 ≤ r → effectiveMappers (some r) c n = specClamp r 1 n)
    ∧ (∀ c n, effectiveMappers none c n = specClamp c 1 n)
    ∧ (∀ c n, effectiveMappers (some 0) c n = specClamp c 1 n)
    ∧ (∀ m c n, effectiveMappers m c n ≤ n) := by
  refine ⟨?_, ?_, ?_, ?_⟩
  · intro r c n hr
    have hz : ¬ r = 0 := by omega
    simp [effectiveMappers, specClamp, hz]
  · intro c n
    simp [effectiveMappers, specClamp]
  · intro c n
    simp [effectiveMappers, specClamp]
  · intro m c n
    exact Nat.min_le_right _ _

/-- Witness for `pool_sizing_amended`: requested 3 workers on 5 items with
2 CPUs gives `clamp(3, 1, 5) = 3`. -/
theorem pool_sizing_amended_witness :
    1 ≤ 3 ∧ effectiveMappers (some 3) 2 5 = specClamp 3 1 5 :=
  ⟨by decide, pool_sizing_amended.1 3 2 5 (by decide)⟩

/-- C5: a single worker holding a single item whose `process` yields
`[v1, v2, v3]` pushes exactly `(None, v1), (None, v2), (None, v3)` onto the
output queue in that order, and the consumption loop then yields exactly
`v1, v2, v3` in that order. -/
theorem per_item_order {α β ε δ : Type} (process : α → List β × Option ε)
    (strA : α → String) (strD : δ → String) (fmt : ε → String) (dur : α → δ)
    (name : String) (item : α) (v1 v2 v3 : β)
    (h : process item = ([v1, v2, v3], none)) :
    (Mapper.run process strA strD fmt dur name [item] []).out
        = [(none, some v1), (none, some v2), (none, some v3)]
      ∧ (consume (Mapper.run process strA strD fmt dur name [item] []).out).1
        = [some v1, some v2, some v3] := by
  have h1 : (Mapper.run process strA strD fmt dur name [item] []).out
      = [(none, some v1), (none, some v2), (none, some v3)] := by
    simp [Mapper.run, h]
  exact ⟨h1, by rw [h1]; simp [consume]⟩

/-- Witness for `per_item_order`: the single item 7 yields 10, 20, 30. -/
theorem per_item_order_witness :
    ((fun _ : Nat => (([10, 20, 30] : List Nat), (none : Option Nat))) 7
        = ([10, 20, 30], none)) ∧
      ((Mapper.run (fun _ : Nat => (([10, 20, 30] : List Nat), (none : Option Nat)))
          (fun x => toString x) (fun x : Nat => toString x) (fun x => toString x)
          (fun _ => 0) "Mapper 0" [7] []).out
          = [(none, some 10), (none, some 20), (none, some 30)]
        ∧ (consume (Mapper.run (fun _ : Nat => (([10, 20, 30] : List Nat), (none : Option Nat)))
            (fun x => toString x) (fun x : Nat => toString x) (fun x => toString x)
            (fun _ => 0) "Mapper 0" [7] []).out).1 = [some 10, some 20, some 30]) :=
  ⟨rfl, per_item_order _ _ _ _ _ _ 7 10 20 30 rfl⟩

/-- The sum `sum(m.is_alive() for m in mappers)` is positive exactly when
some worker is alive. -/
theorem alive_sum_pos {α β ε : Type} (l : List (WState α β ε)) :
    0 < (l.map fun m => if m.isAlive then 1 else 0).sum ↔ ∃ w ∈ l, w.isAlive = true := by
  induction l with
  | nil => simp
  | cons hd tl ih =>
    by_cases h : hd.isAlive = true <;> simp [h, ih]

/-- C6: the guard of the consumption loop (line 75) holds exactly while at least
one worker is alive or the output queue is non-empty; equivalently, the
guard fails — and the lazy sequence is exhausted — exactly when every
worker has reached a terminal state and the output queue is empty. -/
theorem loop_exhaustion_condition {α β ε : Type} (s : Sys α β ε) :
    (loopGuard s = true ↔ ((∃ w ∈ s.workers, w.isAlive = true) ∨ s.channel ≠ []))
    ∧ (loopGuard s = false ↔ exhausted s) := by
  have halive : ∀ w : WState α β ε, w.isAlive = true ↔ ¬ w.terminal = true := by
    intro w
    simp [WState.isAlive]
  constructor
  · simp [loopGuard, decide_eq_true_iff, alive_sum_pos, List.isEmpty_iff]
  · simp only [loopGuard, Bool.or_eq_false_iff, decide_eq_false_iff_not, alive_sum_pos,
      Bool.not_eq_false', List.isEmpty_iff, exhausted]
    constructor
    · rintro ⟨h1, h2⟩
      refine ⟨fun w hw => ?_, h2⟩
      by_contra hterm
      exact h1 ⟨w, hw, (halive w).2 hterm⟩
    · rintro ⟨h1, h2⟩
      refine ⟨?_, h2⟩
      rintro ⟨w, hw, hal⟩
      exact (halive w).1 hal (h1 w hw)

/-- C9: every record pushed through the `debug` / `info` /
`warning` / `error` interface enters the log queue tagged with exactly the
corresponding Python logging severity; `run` forwards a received
`(level, message)` record to the module-wide logger at exactly that
severity, a poll timeout leaves the sinks untouched, and in both cases the
loop continues — the consolidator never terminates on its own. -/
theorem log_consolidation :
    (∀ q m, (QueueLogger.debug q m).queue = q.queue ++ [(DEBUG, m)])
    ∧ (∀ q m, (QueueLogger.info q m).queue = q.queue ++ [(INFO, m)])
    ∧ (∀ q m, (QueueLogger.warning q m).queue = q.queue ++ [(WARNING, m)])
    ∧ (∀ q m, (QueueLogger.error q m).queue = q.queue ++ [(ERROR, m)])
    ∧ (∀ level m s, (QueueLogger.runStep (some (level, m)) s).1.moduleSink
        = s.moduleSink ++ [(level, m)])
    ∧ (∀ s, QueueLogger.runStep none s = (s, true))
    ∧ (∀ r s, (QueueLogger.runStep r s).2 = true) := by
  refine ⟨fun q m => rfl, fun q m => rfl, fun q m => rfl, fun q m => rfl,
    fun level m s => rfl, fun s => rfl, fun r s => ?_⟩
  cases r <;> rfl

/-- C10: the `logger` argument of `QueueLogger.__init__` is never used —
construction with any two arguments (of any type, including `None`) yields
identical states, and `run` writes every record to the module-level logger
only, never to the supplied one. -/
theorem logger_arg_unused :
    (∀ (σ : Type) (l₁ l₂ : Option σ), QueueLogger.init l₁ = QueueLogger.init l₂)
    ∧ (∀ r s, (QueueLogger.runStep r s).1.suppliedSink = s.suppliedSink) := by
  refine ⟨fun σ l₁ l₂ => rfl, fun r s => ?_⟩
  cases r <;> rfl

/-- Full characterization of the run of a worker when `process` succeeds on all
of its items: all values are pushed, one stats record per item is
accumulated, the run ends drained and the accumulated stats are flushed to
the log as the final INFO record. -/
theorem mapper_run_success {α β ε δ : Type} (process : α → List β × Option ε)
    (strA : α → String) (strD : δ → String) (fmt : ε → String) (dur : α → δ)
    (name : String) (l : List α) (stats : List (α × Nat × δ))
    (h : ∀ a ∈ l, (process a).2 = none) :
    Mapper.run process strA strD fmt dur name l stats =
      ⟨l.flatMap fun a => (process a).1.map fun v => ((none : Option ε), some v),
       (l.map fun a => (INFO, name ++ ": Processing " ++ (strA a).take 50))
         ++ [(INFO, name ++ ": No more items to process"),
             (INFO, "\n" ++ String.intercalate "\n" (Mapper.format_stats name strA strD
               (stats ++ l.map fun a => (a, (process a).1.length, dur a))))],
       stats ++ l.map fun a => (a, (process a).1.length, dur a),
       MapperEnd.drained⟩ := by
  induction l generalizing stats with
  | nil => simp [Mapper.run]
  | cons hd tl ih =>
    obtain ⟨vals, herr⟩ : ∃ vals, process hd = (vals, none) :=
      ⟨(process hd).1, by rw [← h hd (by simp)]⟩
    have ih' := ih (stats ++ [(hd, vals.length, dur hd)]) fun a ha => h a (by simp [ha])
    simp only [Mapper.run, herr, ih']
    simp [herr]

/-- C8: a worker accumulates exactly one `(item, count, duration)` stats
record per successfully processed item and, when it terminates through the
queue-empty path, ends drained with its accumulated stats flushed to the
log as the final informational record (the newline-joined `format_stats`
block); a worker that terminates because `process` raised ends failed and
its log records are exactly the three item/error messages — no stats are
flushed. -/
theorem stats_flush_on_drained {α β ε δ : Type} (strA : α → String) (strD : δ → String)
    (fmt : ε → String) (dur : α → δ) (name : String) :
    (∀ (process : α → List β × Option ε) (l : List α) (stats : List (α × Nat × δ)),
      (∀ a ∈ l, (process a).2 = none) →
      (Mapper.run process strA strD fmt dur name l stats).stats
          = stats ++ l.map (fun a => (a, (process a).1.length, dur a))
        ∧ (Mapper.run process strA strD fmt dur name l stats).ended = MapperEnd.drained
        ∧ (Mapper.run process strA strD fmt dur name l stats).logs
          = (l.map fun a => (INFO, name ++ ": Processing " ++ (strA a).take 50))
            ++ [(INFO, name ++ ": No more items to process"),
                (INFO, "\n" ++ String.intercalate "\n" (Mapper.format_stats name strA strD
                  ((Mapper.run process strA strD fmt dur name l stats).stats)))])
    ∧ (∀ (process : α → List β × Option ε) (item : α) (rest : List α)
        (stats : List (α × Nat × δ)) (vals : List β) (e : ε),
        process item = (vals, some e) →
        (Mapper.run process strA strD fmt dur name (item :: rest) stats).ended
            = MapperEnd.failed
        ∧ (Mapper.run process strA strD fmt dur name (item :: rest) stats).logs
          = [(INFO, name ++ ": Processing " ++ (strA item).take 50),
             (ERROR, name ++ ": An error occured while processing " ++ (strA item).take 50),
             (ERROR, name ++ ": " ++ fmt e)]) := by
  constructor
  · intro process l stats h
    rw [mapper_run_success process strA strD fmt dur name l stats h]
    exact ⟨rfl, rfl, rfl⟩
  · intro process item rest stats vals e h
    simp [Mapper.run, h]

/-- Witness for `stats_flush_on_drained`: a worker that processes items 1
and 2 successfully flushes two stats records on drain; a worker whose first
item raises ends failed with only the three item/error log records. -/
theorem stats_flush_on_drained_witness :
    (∀ a ∈ [1, 2], ((fun x : Nat => (([x] : List Nat), (none : Option Nat))) a).2 = none) ∧
    ((Mapper.run (fun x : Nat => (([x] : List Nat), (none : Option Nat)))
        (fun x => toString x) (fun x : Nat => toString x) (fun x => toString x)
        (fun _ => 0) "Mapper 0" [1, 2] []).stats
        = [(1, 1, 0), (2, 1, 0)]
      ∧ (Mapper.run (fun x : Nat => (([x] : List Nat), (none : Option Nat)))
        (fun x => toString x) (fun x : Nat => toString x) (fun x => toString x)
        (fun _ => 0) "Mapper 0" [1, 2] []).ended = MapperEnd.drained)
    ∧ ((Mapper.run (fun _ : Nat => (([] : List Nat), some (3 : Nat)))
        (fun x => toString x) (fun x : Nat => toString x) (fun x => toString x)
        (fun _ => 0) "Mapper 0" [1] []).ended = MapperEnd.failed) := by
  have h := @stats_flush_on_drained Nat Nat Nat Nat (fun x : Nat => toString x)
    (fun x : Nat => toString x) (fun x : Nat => toString x) (fun _ : Nat => (0 : Nat)) "Mapper 0"
  have ha := h.1 (fun x : Nat => (([x] : List Nat), (none : Option Nat))) [1, 2] []
    (by intro a _; rfl)
  have hb := h.2 (fun _ : Nat => (([] : List Nat), some (3 : Nat))) 1 [] [] [] 3 rfl
  exact ⟨by intro a _; rfl, ⟨by rw [ha.1]; rfl, ha.2.1⟩, hb.1⟩

/-- The distinguished element of a worker-list decomposition is a member. -/
theorem mid_mem {γ : Type} (w₁ w₂ : List γ) (x : γ) : x ∈ w₁ ++ x :: w₂ :=
  List.mem_append.2 (Or.inr (List.mem_cons.2 (Or.inl rfl)))

/-- A pointwise property survives replacing the distinguished element of a
worker-list decomposition, provided the new element satisfies it. -/
theorem forall_mem_mid {γ : Type} {P : γ → Prop} {w₁ w₂ : List γ} {x x' : γ}
    (h : ∀ w ∈ w₁ ++ x :: w₂, P w) (hx : P x') : ∀ w ∈ w₁ ++ x' :: w₂, P w := by
  intro w hw
  rcases List.mem_append.1 hw with h1 | h2
  · exact h w (List.mem_append.2 (Or.inl h1))
  · rcases List.mem_cons.1 h2 with rfl | h3
    · exact hx
    · exact h w (List.mem_append.2 (Or.inr (List.mem_cons.2 (Or.inr h3))))

/-- An existing witness of a property other than the (replaced)
distinguished element is also a witness in the original worker list. -/
theorem exists_mem_mid {γ : Type} {P : γ → Prop} {w₁ w₂ : List γ} {x x' : γ}
    (hx : ¬ P x') (h : ∃ w ∈ w₁ ++ x' :: w₂, P w) : ∃ w ∈ w₁ ++ x :: w₂, P w := by
  obtain ⟨w, hw, hPw⟩ := h
  rcases List.mem_append.1 hw with h1 | h2
  · exact ⟨w, List.mem_append.2 (Or.inl h1), hPw⟩
  · rcases List.mem_cons.1 h2 with rfl | h3
    · exact absurd hPw hx
    · exact ⟨w, List.mem_append.2 (Or.inr (List.mem_cons.2 (Or.inr h3))), hPw⟩

/-- One step of the system preserves the invariant `Inv`, provided the user
routine never raises. -/
theorem inv_step {α β ε : Type} {process : α → List β × Option ε} {items : List α}
    {s s' : Sys α β ε} (hNF : ∀ a, (process a).2 = none)
    (h : Step process s s') (hI : Inv process items s) : Inv process items s' := by
  obtain ⟨hvals, hchan, hy, hw, hdq, hne⟩ := hI
  cases h with
  | claim a q w₁ w₂ c y r =>
    refine ⟨?_, hchan, hy, ?_, ?_, by simp⟩
    · rw [← hvals]
      simp only [sysVals, List.flatMap_append, List.flatMap_cons, WState.pending,
        List.flatMap_nil, List.nil_append, ← Multiset.coe_add, ← Multiset.cons_coe,
        ← Multiset.singleton_add]
      abel
    · refine forall_mem_mid hw ⟨?_, by simp⟩
      intro p e hpe
      obtain ⟨h1, h2⟩ := WState.emitting.inj hpe
      rw [← h2]
      exact hNF a
    · intro hex
      exact absurd (hdq (exists_mem_mid (by simp) hex)) (by simp)
  | emit v p e q w₁ w₂ c y r =>
    refine ⟨?_, ?_, hy, ?_, ?_, by simp⟩
    · rw [← hvals]
      simp only [sysVals, List.flatMap_append, List.flatMap_cons, WState.pending,
        List.flatMap_nil, List.nil_append, List.filterMap_append, List.filterMap_cons,
        List.filterMap_nil, Prod.snd, ← Multiset.coe_add, ← Multiset.cons_coe,
        ← Multiset.singleton_add]
      abel
    · intro r' hr'
      rcases List.mem_append.1 hr' with h1 | h2
      · exact hchan r' h1
      · simp at h2
        simp [h2]
    · refine forall_mem_mid hw ⟨?_, by simp⟩
      intro p' e' hpe
      obtain ⟨h1, h2⟩ := WState.emitting.inj hpe
      rw [← h2]
      exact ((hw _ (mid_mem w₁ w₂ _)).1 (v :: p) e rfl)
    · intro hex
      exact hdq (exists_mem_mid (by simp) hex)
  | finishOk q w₁ w₂ c y r =>
    refine ⟨?_, hchan, hy, ?_, ?_, by simp⟩
    · rw [← hvals]
      simp only [sysVals, List.flatMap_append, List.flatMap_cons, WState.pending,
        List.flatMap_nil, List.nil_append]
    · refine forall_mem_mid hw ⟨?_, by simp⟩
      intro p e hpe
      simp at hpe
    · intro hex
      exact hdq (exists_mem_mid (by simp) hex)
  | finishErr e q w₁ w₂ c y r =>
    have := (hw _ (mid_mem w₁ w₂ (WState.emitting [] (some e)))).1 [] (some e) rfl
    simp at this
  | drain w₁ w₂ c y r =>
    refine ⟨?_, hchan, hy, ?_, fun _ => rfl, by simp⟩
    · rw [← hvals]
      simp only [sysVals, List.flatMap_append, List.flatMap_cons, WState.pending,
        List.flatMap_nil, List.nil_append]
    · refine forall_mem_mid hw ⟨?_, by simp⟩
      intro p e hpe
      simp at hpe
  | consumeOk v q w c y =>
    have hv : v.isSome = true := (hchan (none, v) (by simp)).2
    obtain ⟨v', rfl⟩ := Option.isSome_iff_exists.1 hv
    refine ⟨?_, fun r hr => hchan r (List.mem_cons_of_mem _ hr), ?_, hw, hdq, hne⟩
    · rw [← hvals]
      simp only [sysVals, List.filterMap_append, List.filterMap_cons, Prod.snd, id_eq,
        List.filterMap_nil, List.append_nil, ← Multiset.coe_add, ← Multiset.cons_coe,
        ← Multiset.singleton_add, Multiset.coe_singleton]
      abel
    · intro o ho
      rcases List.mem_append.1 ho with h1 | h2
      · exact hy o h1
      · simp at h2
        simp [h2]
  | consumeErr e v q w c y =>
    have := (hchan (some e, v) (by simp)).1
    simp at this

/-- The effective pool size is at least 1 as soon as there is an item. -/
theorem effectiveMappers_pos (m : Option Nat) (c n : Nat) (hn : 1 ≤ n) :
    1 ≤ effectiveMappers m c n := by
  unfold effectiveMappers
  exact le_min (le_max_left 1 _) hn

/-- Freshly started workers hold no pending values. -/
theorem replicate_ready_flatMap {α β ε : Type} (n : Nat) :
    (List.replicate n (WState.ready : WState α β ε)).flatMap WState.pending = [] := by
  induction n with
  | zero => rfl
  | succ k ih => simp [List.replicate_succ, List.flatMap_cons, ih, WState.pending]

/-- The invariant holds in the initial state of a `map` invocation on a
non-empty item list. -/
theorem inv_init {α β ε : Type} (process : α → List β × Option ε) (items : List α)
    (pool : Option Nat) (cpu : Nat) (h : items ≠ []) :
    Inv process items (initSys items pool cpu : Sys α β ε) := by
  have hn : 1 ≤ effectiveMappers pool cpu items.length :=
    effectiveMappers_pos pool cpu items.length (by
      cases items with
      | nil => exact absurd rfl h
      | cons a l => simp)
  refine ⟨?_, by simp [initSys], by simp [initSys], ?_, ?_, ?_⟩
  · simp [sysVals, initSys, replicate_ready_flatMap]
  · intro w hw
    rw [List.eq_of_mem_replicate hw]
    exact ⟨fun p e hpe => by simp at hpe, by simp⟩
  · rintro ⟨w, hw, hdr⟩
    rw [List.eq_of_mem_replicate hw] at hdr
    simp at hdr
  · intro hnil
    have := congrArg List.length hnil
    simp [initSys] at this
    omega

/-- The invariant is carried along every execution. -/
theorem inv_reach {α β ε : Type} {process : α → List β × Option ε} {items : List α}
    {s₀ s : Sys α β ε} (hNF : ∀ a, (process a).2 = none)
    (h : Relation.ReflTransGen (Step process) s₀ s) (hI : Inv process items s₀) :
    Inv process items s := by
  induction h with
  | refl => exact hI
  | tail h1 h2 ih => exact inv_step hNF h2 ih

/-- In an exhausted invariant state, every value has been yielded. -/
theorem inv_final {α β ε : Type} {process : α → List β × Option ε} {items : List α}
    {s : Sys α β ε} (hI : Inv process items s) (hex : exhausted s) :
    (↑(s.yielded.filterMap id) : Multiset β) = ↑(items.flatMap fun a => (process a).1) := by
  obtain ⟨hvals, hchan, hy, hw, hdq, hne⟩ := hI
  obtain ⟨hterm, hchanE⟩ := hex
  have hdrained : ∀ w ∈ s.workers, w = WState.drained := by
    intro w hw'
    have h1 := hterm w hw'
    have h2 := (hw w hw').2
    cases w with
    | ready => simp [WState.terminal] at h1
    | emitting p e => simp [WState.terminal] at h1
    | drained => rfl
    | failed => exact absurd rfl h2
  have hq : s.queue = [] := by
    cases hws : s.workers with
    | nil => exact absurd hws hne
    | cons w ws =>
      exact hdq ⟨w, by simp [hws], hdrained w (by simp [hws])⟩
  have hpend : s.workers.flatMap WState.pending = [] := by
    rw [List.flatMap_eq_nil_iff]
    intro w hw'
    rw [hdrained w hw']
    rfl
  rw [← hvals]
  simp [sysVals, hchanE, hq, hpend]

/-- C1: for a non-empty item list and a `process` that never raises, every
complete execution of a `map` invocation — any interleaving of worker and
orchestrator steps from the initial state to an exhausted one — yields
exactly the multiset of all values `process` produces on all items: no
value is duplicated, none is omitted. -/
theorem map_completeness {α β ε : Type} (process : α → List β × Option ε) (items : List α)
    (pool : Option Nat) (cpu : Nat) (s : Sys α β ε) (h₁ : items ≠ [])
    (h₂ : ∀ a, (process a).2 = none)
    (h₃ : Relation.ReflTransGen (Step process) (initSys items pool cpu) s)
    (h₄ : exhausted s) :
    (↑(s.yielded.filterMap id) : Multiset β) = ↑(items.flatMap fun a => (process a).1) :=
  inv_final (inv_reach h₂ h₃ (inv_init process items pool cpu h₁)) h₄

/-- Witness for `map_completeness`: one worker claims the single item `1`,
emits its value, finishes, drains, and the orchestrator consumes the
buffered record; the yielded multiset is exactly the produced one. -/
theorem map_completeness_witness :
    ([1] ≠ ([] : List Nat)) ∧
      (↑(([some 1] : List (Option Nat)).filterMap id) : Multiset Nat)
        = ↑([1].flatMap fun a : Nat => [a]) := by
  have htrace : Relation.ReflTransGen
      (Step fun a : Nat => (([a] : List Nat), (none : Option Nat)))
      (initSys [1] (some 1) 1)
      (⟨[], [WState.drained], [], [some 1], none⟩ : Sys Nat Nat Nat) := by
    have h0 : (initSys [1] (some 1) 1 : Sys Nat Nat Nat)
        = ⟨[1], [WState.ready], [], [], none⟩ := rfl
    rw [h0]
    exact Relation.ReflTransGen.head (Step.claim 1 [] [] [] [] [] none)
      (Relation.ReflTransGen.head (Step.emit 1 [] none [] [] [] [] [] none)
      (Relation.ReflTransGen.head (Step.finishOk [] [] [] [(none, some 1)] [] none)
      (Relation.ReflTransGen.head (Step.drain [] [] [(none, some 1)] [] none)
      (Relation.ReflTransGen.head (Step.consumeOk (some 1) [] [WState.drained] [] [])
        Relation.ReflTransGen.refl))))
  refine ⟨by simp, ?_⟩
  exact map_completeness (fun a : Nat => (([a] : List Nat), (none : Option Nat)))
    [1] (some 1) 1 _ (by simp) (fun a => rfl) htrace
    ⟨by intro w hw; simp at hw; subst hw; rfl, rfl⟩

/-- Every step of the system strictly decreases the termination measure,
whatever `process` does, so no execution of the model runs forever. -/
theorem step_measure_decreases {α β ε : Type} (process : α → List β × Option ε)
    {s s' : Sys α β ε} (h : Step process s s') :
    sysMeasure process s' < sysMeasure process s := by
  cases h with
  | claim a q w₁ w₂ c y r =>
    simp only [sysMeasure, List.map_cons, List.sum_cons, List.map_append, List.sum_append,
      wMeasure]
    omega
  | emit v p e q w₁ w₂ c y r =>
    simp only [sysMeasure, List.map_append, List.sum_append, List.map_cons, List.sum_cons,
      wMeasure, List.length_append, List.length_cons, List.length_nil]
    omega
  | finishOk q w₁ w₂ c y r =>
    simp only [sysMeasure, List.map_append, List.sum_append, List.map_cons, List.sum_cons,
      wMeasure, Option.isSome_none, List.length_nil]
    omega
  | finishErr e q w₁ w₂ c y r =>
    simp only [sysMeasure, List.map_append, List.sum_append, List.map_cons, List.sum_cons,
      wMeasure, Option.isSome_some, List.length_append, List.length_cons, List.length_nil]
    omega
  | drain w₁ w₂ c y r =>
    simp only [sysMeasure, List.map_append, List.sum_append, List.map_cons, List.sum_cons,
      wMeasure]
    omega
  | consumeOk v q w c y =>
    simp only [sysMeasure, List.length_cons]
    omega
  | consumeErr e v q w c y =>
    simp only [sysMeasure, List.length_cons]
    omega

/-- `nullSys` is preserved by every step when `process` yields nothing and
never raises. -/
theorem null_step {α β ε : Type} {process : α → List β × Option ε} {s s' : Sys α β ε}
    (hp : ∀ a, process a = ([], none)) (h : Step process s s') (hJ : nullSys s) :
    nullSys s' := by
  obtain ⟨hc, hy, hr, hw⟩ := hJ
  cases h with
  | claim a q w₁ w₂ c y r =>
    refine ⟨hc, hy, hr, forall_mem_mid hw ?_⟩
    right; left
    rw [hp a]
  | emit v p e q w₁ w₂ c y r =>
    have := hw _ (mid_mem w₁ w₂ (WState.emitting (v :: p) e))
    simp at this
  | finishOk q w₁ w₂ c y r =>
    exact ⟨hc, hy, hr, forall_mem_mid hw (Or.inl rfl)⟩
  | finishErr e q w₁ w₂ c y r =>
    have := hw _ (mid_mem w₁ w₂ (WState.emitting [] (some e)))
    simp at this
  | drain w₁ w₂ c y r =>
    exact ⟨hc, hy, hr, forall_mem_mid hw (Or.inr (Or.inr rfl))⟩
  | consumeOk v q w c y =>
    simp at hc
  | consumeErr e v q w c y =>
    simp at hc

/-- From any non-exhausted `nullSys` state, some step is enabled. -/
theorem null_progress {α β ε : Type} {process : α → List β × Option ε} {s : Sys α β ε}
    (hJ : nullSys s) (hne : ¬ exhausted s) : ∃ s', Step process s s' := by
  obtain ⟨q, ws, c, y, r⟩ := s
  obtain ⟨hc, hy, hr, hw⟩ := hJ
  simp only at hc hy hr hw
  subst hc hy hr
  have hal : ∃ w ∈ ws, ¬ w.terminal = true := by
    by_contra hall
    push_neg at hall
    exact hne ⟨fun w hw' => hall w hw', rfl⟩
  obtain ⟨w, hmem, hterm⟩ := hal
  obtain ⟨l₁, l₂, rfl⟩ := List.append_of_mem hmem
  rcases hw w (mid_mem l₁ l₂ w) with rfl | rfl | rfl
  · cases q with
    | nil => exact ⟨_, Step.drain l₁ l₂ [] [] none⟩
    | cons a q' => exact ⟨_, Step.claim a q' l₁ l₂ [] [] none⟩
  · exact ⟨_, Step.finishOk q l₁ l₂ [] [] none⟩
  · exact absurd rfl hterm

/-- By induction on the measure: every `nullSys` state reaches an exhausted
state with an empty yielded sequence. -/
theorem null_run_exhausts {α β ε : Type} {process : α → List β × Option ε}
    (hp : ∀ a, process a = ([], none)) :
    ∀ (n : Nat) (s : Sys α β ε), sysMeasure process s ≤ n → nullSys s →
      ∃ t, Relation.ReflTransGen (Step process) s t ∧ exhausted t ∧ t.yielded = [] := by
  intro n
  induction n with
  | zero =>
    intro s hm hJ
    by_cases hex : exhausted s
    · exact ⟨s, Relation.ReflTransGen.refl, hex, hJ.2.1⟩
    · obtain ⟨s', hs'⟩ := null_progress hJ hex
      have := step_measure_decreases process hs'
      omega
  | succ k ih =>
    intro s hm hJ
    by_cases hex : exhausted s
    · exact ⟨s, Relation.ReflTransGen.refl, hex, hJ.2.1⟩
    · obtain ⟨s', hs'⟩ := null_progress hJ hex
      have hd := step_measure_decreases process hs'
      obtain ⟨t, h1, h2, h3⟩ := ih s' (by omega) (null_step hp hs' hJ)
      exact ⟨t, Relation.ReflTransGen.head hs' h1, h2, h3⟩

/-- The initial state of any `map` invocation is a `nullSys` state. -/
theorem null_init {α β ε : Type} (items : List α) (pool : Option Nat) (cpu : Nat) :
    nullSys (initSys items pool cpu : Sys α β ε) := by
  refine ⟨rfl, rfl, rfl, ?_⟩
  intro w hw
  rw [List.eq_of_mem_replicate hw]
  left; rfl

/-- C7: the model of `map` terminates — every step strictly decreases a
natural-number measure, so no execution runs forever; on an empty item list
no workers are spawned at all; and for a `process` that yields nothing on
every item, every invocation (N = 0 or N ≥ 1 items) runs to an exhausted
state in which nothing was yielded. -/
theorem map_termination {α β ε : Type} (process : α → List β × Option ε) :
    (∀ s s' : Sys α β ε, Step process s s' → sysMeasure process s' < sysMeasure process s)
    ∧ (∀ pool cpu, (initSys ([] : List α) pool cpu : Sys α β ε).workers = [])
    ∧ ((∀ a, process a = ([], none)) → ∀ (items : List α) (pool : Option Nat) (cpu : Nat),
        ∃ t, Relation.ReflTransGen (Step process) (initSys items pool cpu) t
          ∧ exhausted t ∧ t.yielded = []) := by
  refine ⟨fun s s' h => step_measure_decreases process h, ?_, ?_⟩
  · intro pool cpu
    simp [initSys, effectiveMappers]
  · intro hp items pool cpu
    exact null_run_exhausts hp (sysMeasure process (initSys items pool cpu)) _ le_rfl
      (null_init items pool cpu)

/-- Witness for `map_termination`: the routine that yields nothing on two
items, with the pool size left unspecified and 4 CPUs. -/
theorem map_termination_witness :
    (∀ a : Nat, (fun _ : Nat => (([] : List Nat), (none : Option Nat))) a = ([], none)) ∧
      ∃ t, Relation.ReflTransGen (Step fun _ : Nat => (([] : List Nat), (none : Option Nat)))
          (initSys [1, 2] none 4) t ∧ exhausted t ∧ t.yielded = [] :=
  ⟨fun _ => rfl,
    (map_termination fun _ : Nat => (([] : List Nat), (none : Option Nat))).2.2
      (fun _ => rfl) [1, 2] none 4⟩

end Para
